import Mathlib

/-!
Verification of the Box-to-local tree synchronizer (`src/box_node/App.js`).

The JavaScript source is shallowly embedded.  The remote tree is an inductive
tree of listing entries; the asynchronous promise pipeline is sequentialized
into explicit state passing (a fold in traversal order); the external Box
client and the filesystem are abstracted by an environment that decides which
listing calls and which read-stream openings reject, and with which error.
-/

/-- A remote entry as it appears in `folderInfo.item_collection.entries`:
`{id, name, type}`. -/
structure RemoteEntry where
  id : String
  name : String
  type : String
deriving DecidableEq, Repr

/-- The observable shape of a rejected Box API promise as inspected at
App.js:153: an optional HTTP `statusCode` and the optional value of
`error.response.headers['retry-after']`. -/
structure Err where
  statusCode : Option Nat
  retryAfter : Option String
deriving DecidableEq, Repr

mutual
/-- A node of the remote folder tree: its listing entry together with the
children reachable through its id (meaningful when `entry.type = "folder"`). -/
inductive RemoteNode : Type where
  | mk (entry : RemoteEntry) (children : RemoteForest)
/-- A finite sequence of sibling remote nodes. -/
inductive RemoteForest : Type where
  | nil
  | cons (head : RemoteNode) (tail : RemoteForest)
end

/-- The listing entry of a node. -/
def RemoteNode.entry : RemoteNode → RemoteEntry
  | .mk e _ => e

/-- The children of a node. -/
def RemoteNode.children : RemoteNode → RemoteForest
  | .mk _ c => c

/-- The listing entries of a forest of siblings, in order: this is what the
remote API reports as `item_collection.entries` for their parent folder. -/
def entriesOf : RemoteForest → List RemoteEntry
  | .nil => []
  | .cons c cs => c.entry :: entriesOf cs

/-- `client.folders.get(folderId, {limit, offset})` (App.js:62-67), restricted
to the slice of `item_collection.entries` it returns: the entries starting at
`offset`, at most `limit` of them. -/
def fetchPage (children : List RemoteEntry) (offset limit : Nat) : List RemoteEntry :=
  (children.drop offset).take limit

/-- `fetchItemsBatch` inside `fetchAllFolderItems` (App.js:84-101): request the
page at `offset` with limit 1000, concatenate, and recurse at `offset + 1000`
exactly when the page holds exactly 1000 items.  The second component records
the offsets of the page requests actually issued, in order. -/
def fetchItemsBatch (children : List RemoteEntry) (offset : Nat) :
    List RemoteEntry × List Nat :=
  if h : (fetchPage children offset 1000).length = 1000 then
    (fetchPage children offset 1000 ++ (fetchItemsBatch children (offset + 1000)).1,
      offset :: (fetchItemsBatch children (offset + 1000)).2)
  else (fetchPage children offset 1000, [offset])
termination_by children.length - offset
decreasing_by
  all_goals
    simp only [fetchPage, List.length_take, List.length_drop] at h
    omega

/-- `fetchAllFolderItems(folderId)` (App.js:99-100): the concatenation of all
pages, starting at offset 0. -/
def fetchAllFolderItems (children : List RemoteEntry) : List RemoteEntry :=
  (fetchItemsBatch children 0).1

/-- The pieces of the process environment the script reads at startup:
`__dirname` (the directory containing `App.js`) and the working directory the
process was launched from. -/
structure ProcEnv where
  scriptDir : String
  cwd : String
deriving DecidableEq, Repr

/-- App.js:23: `let destinationPath = __dirname;` — the destination used when
no `--destination` option is parsed. -/
def defaultDestination (env : ProcEnv) : String := env.scriptDir

/-- JavaScript `a.startsWith(b)` on the character lists. -/
def startsWithJS (s pre : String) : Bool :=
  startsWithAux s.data pre.data
where
  startsWithAux : List Char → List Char → Bool
    | _, [] => true
    | [], _ :: _ => false
    | a :: as, b :: bs => a == b && startsWithAux as bs

/-- The argument loop of App.js:25-34, one recursive step per loop iteration.
`roots` and `dest` are the accumulated `rootFolderIds` and `destinationPath`.
A `--destination` token followed by a truthy (non-empty) token not starting
with `--` consumes that token as the new destination and skips it (`i++`);
a `--destination` token not so followed does nothing further; every other
token is pushed onto `rootFolderIds`. -/
def parseArgsLoop : List String → List String → String → List String × String
  | [], roots, dest => (roots, dest)
  | [a], roots, dest =>
    if a == "--destination" then (roots, dest) else (roots ++ [a], dest)
  | a :: b :: rest2, roots, dest =>
    if a == "--destination" then
      if !(b == "") && !(startsWithJS b "--") then parseArgsLoop rest2 roots b
      else parseArgsLoop (b :: rest2) roots dest
    else parseArgsLoop (b :: rest2) (roots ++ [a]) dest

/-- Command-line parsing for a given process environment: the loop starts with
no root ids and `destinationPath = __dirname` (App.js:22-23). -/
def parseArgs (env : ProcEnv) (args : List String) : List String × String :=
  parseArgsLoop args [] (defaultDestination env)

/-- JavaScript `parseInt(s, 10)`: skip leading whitespace, read an optional
sign, then the maximal run of decimal digits; `none` models `NaN` (no digit
found). -/
def parseIntJS (s : String) : Option Int :=
  let cs := s.data.dropWhile Char.isWhitespace
  let signAndRest : Int × List Char :=
    match cs with
    | '-' :: rest => (-1, rest)
    | '+' :: rest => (1, rest)
    | _ => (1, cs)
  let digits := signAndRest.2.takeWhile Char.isDigit
  if digits = [] then none
  else some (signAndRest.1 * (digits.foldl (fun a c => a * 10 + (c.toNat - 48)) 0 : Nat))

/-- JavaScript truthiness of `error.response.headers['retry-after']`: an
absent header or an empty string is falsy, any other string is truthy. -/
def truthyStr : Option String → Bool
  | none => false
  | some s => !(s == "")

/-- The retry condition at App.js:153:
`error.statusCode === 429 && error.response.headers['retry-after']`. -/
def isRateLimitRetry (e : Err) : Bool :=
  (e.statusCode == some 429) && truthyStr e.retryAfter

/-- The external collaborators (Box client transport and network weather):
for each folder id, whether `client.folders.get` rejects during this attempt,
and for each file id, whether `client.files.getReadStream` rejects. -/
structure Env where
  listFolder : String → Option Err
  getReadStream : String → Option Err

/-- `path.join(a, b)`. -/
def jsJoin (a b : String) : String := a ++ "/" ++ b

/-- The observable state threaded through one synchronization attempt:
`ledger` is the `downloadedFiles` array (push-ordered), `transfers` the
successful `(fileId, localPath)` stream-pipes in traversal order, `calls`
every `getReadStream` invocation, `dirs` the directories created, and
`errors` the promise rejections in traversal order (the first one is the
error surfaced by the rejected `Promise.all`). -/
structure SyncState where
  ledger : List String
  transfers : List (String × String)
  calls : List String
  dirs : List String
  errors : List Err
deriving DecidableEq, Repr

/-- The per-file work of `downloadFiles` (App.js:70-82), sequentialized: for
each file of the already-filtered batch, invoke `getReadStream`; on success the
stream is piped to `path.join(localFolderPath, file.name)` and the id is pushed
onto `downloadedFiles`; on rejection the error is recorded and nothing is
marked. -/
def downloadFilesGo (env : Env) (localFolderPath : String) (st : SyncState) :
    List RemoteEntry → SyncState
  | [] => st
  | file :: rest =>
    match env.getReadStream file.id with
    | none =>
      downloadFilesGo env localFolderPath
        { st with
          calls := st.calls ++ [file.id],
          transfers := st.transfers ++ [(file.id, jsJoin localFolderPath file.name)],
          ledger := st.ledger ++ [file.id] } rest
    | some e =>
      downloadFilesGo env localFolderPath
        { st with
          calls := st.calls ++ [file.id],
          errors := st.errors ++ [e] } rest

/-- `downloadFiles(files)` (App.js:70-82).  In the source the
`downloadedFiles.includes(file.id)` checks of `files.map` all run
synchronously before any push lands (pushes happen in later `.then`
callbacks), so the check is a snapshot filter against the ledger as it stands
on entry. -/
def downloadFiles (env : Env) (localFolderPath : String) (files : List RemoteEntry)
    (st : SyncState) : SyncState :=
  downloadFilesGo env localFolderPath st
    (files.filter (fun file => !(st.ledger.contains file.id)))

mutual
/-- `downloadFilesRecursively(folderId, localFolderPath, downloadedFiles)`
(App.js:69-126), sequentialized in traversal order: list all items of the
folder (paginated); on a listing rejection the whole call rejects with that
error; otherwise split the items by type, download the files whose id is not
yet ledgered, then handle each subfolder.  `fetchAllFolderItems` applied to
`entriesOf children` returns exactly `entriesOf children`
(`fetchAllFolderItems_eq`), so the subfolder recursion walks the folder-typed
children in listing order, as `folders.map` does in the source. -/
def syncNode (env : Env) (localFolderPath : String) (st : SyncState) (n : RemoteNode) :
    SyncState :=
  match n with
  | .mk entry children =>
    match env.listFolder entry.id with
    | some e => { st with errors := st.errors ++ [e] }
    | none =>
      let allItems := fetchAllFolderItems (entriesOf children)
      let files := allItems.filter (fun item => item.type == "file")
      let newFiles := files.filter (fun file => !(st.ledger.contains file.id))
      let st1 := downloadFiles env localFolderPath newFiles st
      syncSubfolders env localFolderPath st1 children

/-- The `folders.map` loop of App.js:115-122 over the children in listing
order: entries whose type is not "folder" are skipped here (files were handled
by `downloadFiles`, other types are ignored); for each subfolder the mirrored
local directory is created unless it already exists, then the recursion
descends with the same ledger. -/
def syncSubfolders (env : Env) (localFolderPath : String) (st : SyncState) :
    RemoteForest → SyncState
  | .nil => st
  | .cons c cs =>
    if c.entry.type == "folder" then
      let subfolderLocalPath := jsJoin localFolderPath c.entry.name
      let st1 :=
        if st.dirs.contains subfolderLocalPath then st
        else { st with dirs := st.dirs ++ [subfolderLocalPath] }
      syncSubfolders env localFolderPath (syncNode env subfolderLocalPath st1 c) cs
    else
      syncSubfolders env localFolderPath st cs
end

mutual
/-- All file ids a full walk of the tree below `n` can list: the ids of the
file-typed entries of `n`'s listing, followed by the file ids below each
folder-typed child. -/
def fileIdsUnder : RemoteNode → List String
  | .mk _ children =>
    ((entriesOf children).filter (fun item => item.type == "file")).map RemoteEntry.id
      ++ fileIdsUnderForest children

/-- File ids listed below a forest of siblings. -/
def fileIdsUnderForest : RemoteForest → List String
  | .nil => []
  | .cons c cs =>
    (if c.entry.type == "folder" then fileIdsUnder c else []) ++ fileIdsUnderForest cs
end

/-- One attempt of the Retry Controller body: `downloadFilesRecursively` run on
the root with the persistent `downloadedFiles` ledger (and the local
directories that already exist on disk from earlier attempts); transfers,
stream calls and errors of the attempt start empty. -/
def attemptRun (env : Env) (tree : RemoteNode) (localRootPath : String)
    (ledger dirs : List String) : SyncState :=
  syncNode env localRootPath
    { ledger := ledger, transfers := [], calls := [], dirs := dirs, errors := [] } tree

/-- The observable history of `retryDownload` (App.js:147-166) for one root:
the state of every attempt in order, the parsed `retry-after` value of every
rate-limit backoff (`none` models `parseInt` returning `NaN`), everything
passed to `logError`, the ledger and directory set after the last attempt, and
the settlement of the wrapper promise: `some (Except.ok ())` once it resolves,
`none` while it is still retrying when the fuel runs out (the source loops
with no retry cap), and `some (Except.error e)` would be a rejection. -/
structure RetryTrace where
  attempts : List SyncState
  waits : List (Option Int)
  errorLog : List Err
  finalLedger : List String
  finalDirs : List String
  result : Option (Except Err Unit)
deriving Repr

/-- `retryDownload` (App.js:147-166): run one attempt with the environment of
attempt index `k`; if it settles without rejection the wrapper resolves; if it
rejects with `statusCode === 429` and a truthy `retry-after` header, log the
error, wait `parseInt(header, 10)` seconds and recurse with the SAME
`downloadedFiles` array; on any other rejection log the error and resolve.
`fuel` bounds how many attempts this finite trace can observe — the source
itself has no bound. -/
def retryDownload (tree : RemoteNode) (localRootPath : String) (envs : Nat → Env)
    (k : Nat) (fuel : Nat) (ledger dirs : List String) : RetryTrace :=
  match fuel with
  | 0 => ⟨[], [], [], ledger, dirs, none⟩
  | fuel + 1 =>
    let st := attemptRun (envs k) tree localRootPath ledger dirs
    match st.errors.head? with
    | none => ⟨[st], [], [], st.ledger, st.dirs, some (.ok ())⟩
    | some e =>
      if isRateLimitRetry e then
        let t := retryDownload tree localRootPath envs (k + 1) fuel st.ledger st.dirs
        ⟨st :: t.attempts, parseIntJS (e.retryAfter.getD "") :: t.waits,
          e :: t.errorLog, t.finalLedger, t.finalDirs, t.result⟩
      else ⟨[st], [], [e], st.ledger, st.dirs, some (.ok ())⟩

/-- The observable outcome of the per-root pipeline of App.js:139-171. -/
structure RootRun where
  localRootPath : Option String
  errorLog : List Err
  retry : Option RetryTrace
deriving Repr

/-- One iteration of `rootFolderIds.forEach` (App.js:139-171): fetch the
root's own `FolderInfo` (to learn its display name); if that initial fetch
rejects — with any error whatsoever — the outer `.catch` logs it and the root
is finished, no retry wrapper ever starts.  Otherwise create the local root
directory and run `retryDownload` with a fresh empty ledger. -/
def processRoot (initialFetch : Option Err) (tree : RemoteNode)
    (destinationPath : String) (envs : Nat → Env) (fuel : Nat) : RootRun :=
  match initialFetch with
  | some e => ⟨none, [e], none⟩
  | none =>
    let localRootPath := jsJoin destinationPath tree.entry.name
    let t := retryDownload tree localRootPath envs 0 fuel [] [localRootPath]
    ⟨some localRootPath, t.errorLog, some t⟩

/-- How one synchronization step extends the observable state: transfers are
appended, the ledger is extended by exactly the ids of the new transfers (in
order), and none of the newly transferred ids was ledgered on entry. -/
def Delta (st st' : SyncState) : Prop :=
  ∃ ts, st'.transfers = st.transfers ++ ts ∧
    st'.ledger = st.ledger ++ ts.map Prod.fst ∧
    ∀ x ∈ ts, x.1 ∉ st.ledger

/-- Soundness of the trace so far: transferred ids are pairwise distinct and
every transferred id is ledgered. -/
def TraceInv (st : SyncState) : Prop :=
  (st.transfers.map Prod.fst).Nodup ∧ ∀ x ∈ st.transfers, x.1 ∈ st.ledger

/-- All transferred file ids observed across the attempts of a retry trace,
in order. -/
def traceIds (t : RetryTrace) : List String :=
  ((t.attempts.map SyncState.transfers).flatten).map Prod.fst

/-- A rate-limited rejection with a parseable retry-after header. -/
def errRL : Err := ⟨some 429, some "2"⟩

/-- A 429 rejection whose retry-after header is present but unparseable
(`parseInt("abc", 10)` is `NaN`). -/
def errNaN : Err := ⟨some 429, some "abc"⟩

/-- A plain terminal server error. -/
def err500 : Err := ⟨some 500, none⟩

/-- Every folder listing rejects rate-limited; streams succeed. -/
def envListRL : Env := ⟨fun _ => some errRL, fun _ => none⟩

/-- Every folder listing rejects with the unparseable 429. -/
def envListNaN : Env := ⟨fun _ => some errNaN, fun _ => none⟩

/-- Every folder listing rejects with a 500. -/
def envList500 : Env := ⟨fun _ => some err500, fun _ => none⟩

/-- Everything succeeds. -/
def envOk : Env := ⟨fun _ => none, fun _ => none⟩

/-- A root folder with one file and one subfolder holding another file. -/
def sampleTree : RemoteNode :=
  .mk ⟨"71025", "Root", "folder"⟩
    (.cons (.mk ⟨"804", "a.txt", "file"⟩ .nil)
      (.cons (.mk ⟨"805", "Sub", "folder"⟩
        (.cons (.mk ⟨"806", "b.txt", "file"⟩ .nil) .nil)) .nil))

/-- A childless root folder. -/
def rootOnly : RemoteNode := .mk ⟨"91", "Root", "folder"⟩ .nil

/-- An arbitrary listing entry. -/
def dummyEntry : RemoteEntry := ⟨"0", "x", "file"⟩

/-- A process started from a working directory different from the script's
directory. -/
def sampleProc : ProcEnv := ⟨"/srv/box_node", "/home/operator"⟩

theorem fetchItemsBatch_items (children : List RemoteEntry) (offset : Nat) :
    (fetchItemsBatch children offset).1 = children.drop offset := by
  have main : ∀ n offset, children.length - offset ≤ n →
      (fetchItemsBatch children offset).1 = children.drop offset := by
    intro n
    induction n with
    | zero =>
      intro offset hle
      rw [fetchItemsBatch.eq_def, dif_neg]
      · have : children.length - offset = 0 := by omega
        simp only [fetchPage]
        exact List.take_of_length_le (by simp only [List.length_drop]; omega)
      · simp only [fetchPage, List.length_take, List.length_drop]
        omega
    | succ n ih =>
      intro offset hle
      rw [fetchItemsBatch.eq_def]
      by_cases h : (fetchPage children offset 1000).length = 1000
      · rw [dif_pos h]
        simp only [fetchPage, List.length_take, List.length_drop] at h
        have hrec := ih (offset + 1000) (by omega)
        simp only [hrec, fetchPage]
        have hd : List.drop (offset + 1000) children =
            List.drop 1000 (List.drop offset children) := by
          rw [List.drop_drop, Nat.add_comm]
        rw [hd]
        exact List.take_append_drop 1000 (children.drop offset)
      · rw [dif_neg h]
        simp only [fetchPage, List.length_take, List.length_drop] at h
        simp only [fetchPage]
        exact List.take_of_length_le (by simp only [List.length_drop]; omega)
  exact main children.length offset (by omega)

theorem fetchAllFolderItems_eq (children : List RemoteEntry) :
    fetchAllFolderItems children = children := by
  simp [fetchAllFolderItems, fetchItemsBatch_items]

/-- A page strictly shorter than 1000 is the last one: no further request. -/
theorem fetchItemsBatch_offsets_short (children : List RemoteEntry) (offset : Nat)
    (h : (fetchPage children offset 1000).length < 1000) :
    (fetchItemsBatch children offset).2 = [offset] := by
  rw [fetchItemsBatch.eq_def, dif_neg (by omega)]

/-- A full page of exactly 1000 items triggers one more request at
`offset + 1000`. -/
theorem fetchItemsBatch_offsets_full (children : List RemoteEntry) (offset : Nat)
    (h : (fetchPage children offset 1000).length = 1000) :
    (fetchItemsBatch children offset).2 =
      offset :: (fetchItemsBatch children (offset + 1000)).2 := by
  rw [fetchItemsBatch.eq_def, dif_pos h]

theorem fetchItemsBatch_offsets_1000 (children : List RemoteEntry)
    (h : children.length = 1000) : (fetchItemsBatch children 0).2 = [0, 1000] := by
  rw [fetchItemsBatch_offsets_full children 0 (by simp [fetchPage]; omega)]
  rw [fetchItemsBatch_offsets_short children 1000 (by simp [fetchPage]; omega)]

theorem fetchItemsBatch_offsets_999 (children : List RemoteEntry)
    (h : children.length = 999) : (fetchItemsBatch children 0).2 = [0] := by
  rw [fetchItemsBatch_offsets_short children 0 (by simp [fetchPage]; omega)]

theorem parseArgsLoop_no_dest (args : List String) :
    ∀ roots dest, "--destination" ∉ args →
      parseArgsLoop args roots dest = (roots ++ args, dest) := by
  induction args with
  | nil => intro roots dest _; simp [parseArgsLoop]
  | cons a rest ih =>
    intro roots dest h
    have ha : (a == "--destination") = false := by
      simp only [List.mem_cons, not_or] at h
      exact beq_eq_false_iff_ne.mpr (fun hc => h.1 hc.symm)
    have hrest : "--destination" ∉ rest := by
      simp only [List.mem_cons, not_or] at h
      exact h.2
    cases rest with
    | nil => simp [parseArgsLoop, ha]
    | cons b rest2 =>
      simp only [parseArgsLoop, ha, Bool.false_eq_true, if_false]
      rw [ih (roots ++ [a]) dest hrest]
      simp

theorem parseIntJS_empty : parseIntJS "" = none := by
  simp [parseIntJS]

theorem deltaRefl (st : SyncState) : Delta st st :=
  ⟨[], by simp, by simp, by simp⟩

theorem deltaTrans {a b c : SyncState} (h1 : Delta a b) (h2 : Delta b c) : Delta a c := by
  obtain ⟨ts1, ht1, hl1, hn1⟩ := h1
  obtain ⟨ts2, ht2, hl2, hn2⟩ := h2
  refine ⟨ts1 ++ ts2, ?_, ?_, ?_⟩
  · rw [ht2, ht1, List.append_assoc]
  · rw [hl2, hl1, List.map_append, List.append_assoc]
  · intro x hx
    rcases List.mem_append.1 hx with hx | hx
    · exact hn1 x hx
    · intro hmem
      exact hn2 x hx (hl1 ▸ List.mem_append_left _ hmem)

theorem downloadFilesGo_delta (env : Env) (p : String) :
    ∀ (dl : List RemoteEntry) (st0 st : SyncState),
      Delta st0 st → (∀ f ∈ dl, f.id ∉ st0.ledger) →
      Delta st0 (downloadFilesGo env p st dl) := by
  intro dl
  induction dl with
  | nil => intro st0 st hd _; exact hd
  | cons file rest ih =>
    intro st0 st hd hids
    obtain ⟨ts, ht, hl, hn⟩ := hd
    cases hstream : env.getReadStream file.id with
    | none =>
      simp only [downloadFilesGo, hstream]
      apply ih st0 _ ?_ (fun f hf => hids f (List.mem_cons_of_mem _ hf))
      refine ⟨ts ++ [(file.id, jsJoin p file.name)], ?_, ?_, ?_⟩
      · simp only [ht, List.append_assoc]
      · simp only [hl, List.map_append, List.append_assoc, List.map_cons, List.map_nil]
      · intro x hx
        rcases List.mem_append.1 hx with hx | hx
        · exact hn x hx
        · rw [List.mem_singleton.1 hx]
          exact hids file (List.mem_cons_self _ _)
    | some e =>
      simp only [downloadFilesGo, hstream]
      exact ih st0 _ ⟨ts, ht, hl, hn⟩ (fun f hf => hids f (List.mem_cons_of_mem _ hf))

theorem downloadFiles_delta (env : Env) (p : String) (files : List RemoteEntry)
    (st : SyncState) : Delta st (downloadFiles env p files st) := by
  apply downloadFilesGo_delta env p _ st st (deltaRefl st)
  intro f hf
  have hmem := (List.mem_filter.1 hf).2
  simpa using hmem

mutual
theorem syncNode_delta (env : Env) (p : String) (st : SyncState) (n : RemoteNode) :
    Delta st (syncNode env p st n) := by
  cases n with
  | mk entry children =>
    cases hl : env.listFolder entry.id with
    | some e =>
      simp only [syncNode, hl]
      exact ⟨[], by simp, by simp, by simp⟩
    | none =>
      simp only [syncNode, hl]
      exact deltaTrans (downloadFiles_delta env p _ st)
        (syncSubfolders_delta env p _ children)

theorem syncSubfolders_delta (env : Env) (p : String) (st : SyncState)
    (l : RemoteForest) : Delta st (syncSubfolders env p st l) := by
  cases l with
  | nil =>
    simp only [syncSubfolders]
    exact deltaRefl st
  | cons c cs =>
    by_cases hc : (c.entry.type == "folder") = true
    · simp only [syncSubfolders, hc, if_true]
      have h1 : Delta st (if st.dirs.contains (jsJoin p c.entry.name) then st
          else { st with dirs := st.dirs ++ [jsJoin p c.entry.name] }) := by
        split
        · exact deltaRefl st
        · exact ⟨[], by simp, by simp, by simp⟩
      exact deltaTrans (deltaTrans h1 (syncNode_delta env _ _ c))
        (syncSubfolders_delta env p _ cs)
    · simp only [syncSubfolders, hc]
      exact syncSubfolders_delta env p st cs
end

theorem downloadFilesGo_inv (env : Env) (p : String) :
    ∀ (dl : List RemoteEntry) (st : SyncState),
      (dl.map RemoteEntry.id).Nodup → (∀ f ∈ dl, f.id ∉ st.ledger) → TraceInv st →
      TraceInv (downloadFilesGo env p st dl) := by
  intro dl
  induction dl with
  | nil => intro st _ _ hI; exact hI
  | cons file rest ih =>
    intro st hnd hids hI
    simp only [List.map_cons, List.nodup_cons] at hnd
    obtain ⟨hnotin, hndrest⟩ := hnd
    cases hstream : env.getReadStream file.id with
    | none =>
      simp only [downloadFilesGo, hstream]
      apply ih _ hndrest
      · intro f hf
        simp only [List.mem_append, List.mem_singleton, not_or]
        refine ⟨hids f (List.mem_cons_of_mem _ hf), ?_⟩
        intro heq
        exact hnotin (heq ▸ List.mem_map_of_mem RemoteEntry.id hf)
      · constructor
        · simp only [List.map_append, List.map_cons, List.map_nil]
          rw [List.nodup_append]
          refine ⟨hI.1, List.nodup_singleton _, ?_⟩
          intro x hx hx'
          rw [List.mem_singleton.1 hx'] at hx
          obtain ⟨y, hy, hyx⟩ := List.mem_map.1 hx
          exact hids file (List.mem_cons_self _ _) (hyx ▸ hI.2 y hy)
        · intro x hx
          rcases List.mem_append.1 hx with hx | hx
          · exact List.mem_append_left _ (hI.2 x hx)
          · rw [List.mem_singleton.1 hx]
            simp
    | some e =>
      simp only [downloadFilesGo, hstream]
      apply ih _ hndrest
      · intro f hf
        exact hids f (List.mem_cons_of_mem _ hf)
      · exact hI

theorem downloadFiles_inv (env : Env) (p : String) (files : List RemoteEntry)
    (st : SyncState) (hnd : (files.map RemoteEntry.id).Nodup) (hI : TraceInv st) :
    TraceInv (downloadFiles env p files st) := by
  apply downloadFilesGo_inv
  · exact ((List.filter_sublist files).map RemoteEntry.id).nodup hnd
  · intro f hf
    have hmem := (List.mem_filter.1 hf).2
    simpa using hmem
  · exact hI

theorem inv_dirs (st : SyncState) (d : List String) (hI : TraceInv st) :
    TraceInv { st with dirs := d } := hI

mutual
theorem syncNode_inv (env : Env) (p : String) (st : SyncState) (n : RemoteNode)
    (hnd : (fileIdsUnder n).Nodup) (hI : TraceInv st) : TraceInv (syncNode env p st n) := by
  cases n with
  | mk entry children =>
    simp only [fileIdsUnder, List.nodup_append] at hnd
    obtain ⟨hlevel, hforest, _⟩ := hnd
    cases hl : env.listFolder entry.id with
    | some e =>
      simp only [syncNode, hl]
      exact hI
    | none =>
      simp only [syncNode, hl, fetchAllFolderItems_eq]
      apply syncSubfolders_inv env p _ children hforest
      apply downloadFiles_inv env p _ st _ hI
      exact ((List.filter_sublist _).map RemoteEntry.id).nodup hlevel

theorem syncSubfolders_inv (env : Env) (p : String) (st : SyncState)
    (l : RemoteForest) (hnd : (fileIdsUnderForest l).Nodup) (hI : TraceInv st) :
    TraceInv (syncSubfolders env p st l) := by
  cases l with
  | nil =>
    simp only [syncSubfolders]
    exact hI
  | cons c cs =>
    simp only [fileIdsUnderForest] at hnd
    by_cases hc : (c.entry.type == "folder") = true
    · rw [if_pos hc, List.nodup_append] at hnd
      obtain ⟨hhead, htail, _⟩ := hnd
      simp only [syncSubfolders, hc, if_true]
      apply syncSubfolders_inv env p _ cs htail
      apply syncNode_inv env _ _ c hhead
      split
      · exact hI
      · exact hI
    · rw [if_neg hc] at hnd
      simp only [List.nil_append] at hnd
      simp only [syncSubfolders, hc]
      exact syncSubfolders_inv env p st cs hnd hI
end

theorem downloadFiles_skip (env : Env) (p : String) (files : List RemoteEntry)
    (st : SyncState) (h : ∀ f ∈ files, f.id ∈ st.ledger) :
    downloadFiles env p files st = st := by
  have hnil : files.filter (fun file => !(st.ledger.contains file.id)) = [] := by
    rw [List.filter_eq_nil_iff]
    intro f hf
    simp [h f hf]
  rw [downloadFiles, hnil, downloadFilesGo]

mutual
theorem syncNode_skip (env : Env) (p : String) (st : SyncState) (n : RemoteNode)
    (h : ∀ x ∈ fileIdsUnder n, x ∈ st.ledger) :
    (syncNode env p st n).transfers = st.transfers ∧
    (syncNode env p st n).calls = st.calls ∧
    (syncNode env p st n).ledger = st.ledger := by
  cases n with
  | mk entry children =>
    cases hl : env.listFolder entry.id with
    | some e =>
      simp [syncNode, hl]
    | none =>
      simp only [syncNode, hl, fetchAllFolderItems_eq]
      have hnew : ∀ f ∈ ((entriesOf children).filter
          (fun item => item.type == "file")).filter
          (fun file => !(st.ledger.contains file.id)), f.id ∈ st.ledger := by
        intro f hf
        apply h
        simp only [fileIdsUnder, List.mem_append]
        exact Or.inl (List.mem_map_of_mem RemoteEntry.id (List.mem_of_mem_filter hf))
      rw [downloadFiles_skip env p _ st hnew]
      apply syncSubfolders_skip
      intro x hx
      apply h
      simp only [fileIdsUnder, List.mem_append]
      exact Or.inr hx

theorem syncSubfolders_skip (env : Env) (p : String) (st : SyncState)
    (l : RemoteForest) (h : ∀ x ∈ fileIdsUnderForest l, x ∈ st.ledger) :
    (syncSubfolders env p st l).transfers = st.transfers ∧
    (syncSubfolders env p st l).calls = st.calls ∧
    (syncSubfolders env p st l).ledger = st.ledger := by
  cases l with
  | nil =>
    simp [syncSubfolders]
  | cons c cs =>
    have hcs : ∀ x ∈ fileIdsUnderForest cs, x ∈ st.ledger := by
      intro x hx
      apply h
      simp only [fileIdsUnderForest, List.mem_append]
      exact Or.inr hx
    by_cases hc : (c.entry.type == "folder") = true
    · have hch : ∀ x ∈ fileIdsUnder c, x ∈ st.ledger := by
        intro x hx
        apply h
        simp only [fileIdsUnderForest, List.mem_append]
        rw [if_pos hc]
        exact Or.inl hx
      simp only [syncSubfolders, hc, if_true]
      split
      · obtain ⟨ht, hca, hld⟩ := syncNode_skip env (jsJoin p c.entry.name) st c hch
        obtain ⟨ht2, hca2, hld2⟩ :=
          syncSubfolders_skip env p _ cs (fun x hx => hld ▸ hcs x hx)
        exact ⟨ht2.trans ht, hca2.trans hca, hld2.trans hld⟩
      · obtain ⟨ht, hca, hld⟩ :=
          syncNode_skip env (jsJoin p c.entry.name)
            { st with dirs := st.dirs ++ [jsJoin p c.entry.name] } c hch
        obtain ⟨ht2, hca2, hld2⟩ :=
          syncSubfolders_skip env p _ cs (fun x hx => hld ▸ hcs x hx)
        exact ⟨ht2.trans ht, hca2.trans hca, hld2.trans hld⟩
    · simp only [syncSubfolders, hc]
      exact syncSubfolders_skip env p st cs hcs
end

theorem attemptRun_delta (env : Env) (tree : RemoteNode) (path : String)
    (ledger dirs : List String) :
    ∃ ts, (attemptRun env tree path ledger dirs).transfers = ts ∧
      (attemptRun env tree path ledger dirs).ledger = ledger ++ ts.map Prod.fst ∧
      ∀ x ∈ ts, x.1 ∉ ledger := by
  obtain ⟨ts, ht, hl, hn⟩ :=
    syncNode_delta env path ⟨ledger, [], [], dirs, []⟩ tree
  exact ⟨ts, by simpa using ht, by simpa using hl, hn⟩

theorem attemptRun_inv (env : Env) (tree : RemoteNode) (path : String)
    (ledger dirs : List String) (hnd : (fileIdsUnder tree).Nodup) :
    ((attemptRun env tree path ledger dirs).transfers.map Prod.fst).Nodup ∧
    ∀ x ∈ (attemptRun env tree path ledger dirs).transfers,
      x.1 ∈ (attemptRun env tree path ledger dirs).ledger :=
  syncNode_inv env path ⟨ledger, [], [], dirs, []⟩ tree hnd ⟨List.nodup_nil, by simp⟩

theorem retryDownload_nodup (tree : RemoteNode) (path : String) (envs : Nat → Env)
    (hnd : (fileIdsUnder tree).Nodup) :
    ∀ (fuel k : Nat) (ledger dirs : List String),
      (traceIds (retryDownload tree path envs k fuel ledger dirs)).Nodup ∧
      ∀ x ∈ traceIds (retryDownload tree path envs k fuel ledger dirs), x ∉ ledger := by
  intro fuel
  induction fuel with
  | zero =>
    intro k ledger dirs
    simp [retryDownload, traceIds]
  | succ fuel ih =>
    intro k ledger dirs
    obtain ⟨ts, ht, hl, hn⟩ := attemptRun_delta (envs k) tree path ledger dirs
    have hI := attemptRun_inv (envs k) tree path ledger dirs hnd
    have hsingle :
        (traceIds ⟨[attemptRun (envs k) tree path ledger dirs], [], [],
          (attemptRun (envs k) tree path ledger dirs).ledger,
          (attemptRun (envs k) tree path ledger dirs).dirs, some (.ok ())⟩).Nodup ∧
        ∀ x ∈ traceIds ⟨[attemptRun (envs k) tree path ledger dirs], [], [],
          (attemptRun (envs k) tree path ledger dirs).ledger,
          (attemptRun (envs k) tree path ledger dirs).dirs, some (.ok ())⟩,
          x ∉ ledger := by
      constructor
      · simpa [traceIds] using hI.1
      · intro x hx
        simp only [traceIds, List.map_cons, List.map_nil, List.flatten] at hx
        simp only [List.append_nil] at hx
        rw [ht] at hx
        obtain ⟨y, hy, hyx⟩ := List.mem_map.1 hx
        exact hyx ▸ hn y hy
    cases hh : (attemptRun (envs k) tree path ledger dirs).errors.head? with
    | none =>
      simp only [retryDownload, hh]
      exact hsingle
    | some e =>
      by_cases hrl : isRateLimitRetry e = true
      · simp only [retryDownload, hh, hrl, if_true]
        obtain ⟨ihnd, ihnot⟩ :=
          ih (k + 1) (attemptRun (envs k) tree path ledger dirs).ledger
            (attemptRun (envs k) tree path ledger dirs).dirs
        constructor
        · simp only [traceIds, List.map_cons, List.flatten_cons, List.map_append]
          rw [List.nodup_append]
          refine ⟨hI.1, ihnd, ?_⟩
          intro x hx hx'
          have hxl : x ∈ (attemptRun (envs k) tree path ledger dirs).ledger := by
            obtain ⟨y, hy, hyx⟩ := List.mem_map.1 hx
            exact hyx ▸ hI.2 y hy
          exact ihnot x hx' hxl
        · intro x hx
          simp only [traceIds, List.map_cons, List.flatten_cons, List.map_append,
            List.mem_append] at hx
          rcases hx with hx | hx
          · rw [ht] at hx
            obtain ⟨y, hy, hyx⟩ := List.mem_map.1 hx
            exact hyx ▸ hn y hy
          · intro hmem
            exact ihnot x hx (hl ▸ List.mem_append_left _ hmem)
      · rw [Bool.not_eq_true] at hrl
        simp only [retryDownload, hh, hrl, Bool.false_eq_true, if_false]
        exact hsingle

theorem retryDownload_chain (tree : RemoteNode) (path : String) (envs : Nat → Env) :
    ∀ (fuel k : Nat) (ledger dirs : List String),
      List.Chain' (fun a b => ∃ t, b.ledger = a.ledger ++ t)
        (retryDownload tree path envs k fuel ledger dirs).attempts ∧
      ∀ a, (retryDownload tree path envs k fuel ledger dirs).attempts.head? = some a →
        ∃ t, a.ledger = ledger ++ t := by
  intro fuel
  induction fuel with
  | zero =>
    intro k ledger dirs
    simp [retryDownload]
  | succ fuel ih =>
    intro k ledger dirs
    obtain ⟨ts, ht, hl, hn⟩ := attemptRun_delta (envs k) tree path ledger dirs
    have hsingle :
        List.Chain' (fun a b => ∃ t, b.ledger = a.ledger ++ t)
          [attemptRun (envs k) tree path ledger dirs] ∧
        ∀ a, ([attemptRun (envs k) tree path ledger dirs] : List SyncState).head? = some a →
          ∃ t, a.ledger = ledger ++ t := by
      refine ⟨List.chain'_singleton _, ?_⟩
      intro a ha
      have ha' : attemptRun (envs k) tree path ledger dirs = a := by simpa using ha
      subst ha'
      exact ⟨ts.map Prod.fst, hl⟩
    cases hh : (attemptRun (envs k) tree path ledger dirs).errors.head? with
    | none =>
      simp only [retryDownload, hh]
      exact hsingle
    | some e =>
      by_cases hrl : isRateLimitRetry e = true
      · simp only [retryDownload, hh, hrl, if_true]
        obtain ⟨ihc, ihh⟩ :=
          ih (k + 1) (attemptRun (envs k) tree path ledger dirs).ledger
            (attemptRun (envs k) tree path ledger dirs).dirs
        constructor
        · rw [List.chain'_cons']
          refine ⟨?_, ihc⟩
          intro b hb
          obtain ⟨t, htl⟩ := ihh b hb
          exact ⟨t, htl⟩
        · intro a ha
          have ha' : attemptRun (envs k) tree path ledger dirs = a := by simpa using ha
          subst ha'
          exact ⟨ts.map Prod.fst, hl⟩
      · rw [Bool.not_eq_true] at hrl
        simp only [retryDownload, hh, hrl, Bool.false_eq_true, if_false]
        exact hsingle

theorem retryDownload_result (tree : RemoteNode) (path : String) (envs : Nat → Env) :
    ∀ (fuel k : Nat) (ledger dirs : List String) (r : Except Err Unit),
      (retryDownload tree path envs k fuel ledger dirs).result = some r →
      r = .ok () := by
  intro fuel
  induction fuel with
  | zero =>
    intro k ledger dirs r h
    simp [retryDownload] at h
  | succ fuel ih =>
    intro k ledger dirs r h
    revert h
    cases hh : (attemptRun (envs k) tree path ledger dirs).errors.head? with
    | none =>
      simp only [retryDownload, hh]
      intro h
      exact (Option.some_inj.1 h).symm
    | some e =>
      by_cases hrl : isRateLimitRetry e = true
      · simp only [retryDownload, hh, hrl, if_true]
        intro h
        exact ih (k + 1) _ _ r h
      · rw [Bool.not_eq_true] at hrl
        simp only [retryDownload, hh, hrl, Bool.false_eq_true, if_false]
        intro h
        exact (Option.some_inj.1 h).symm

theorem retryDownload_terminalFail (tree : RemoteNode) (path : String)
    (envs : Nat → Env) (k fuel : Nat) (ledger dirs : List String) (e : Err)
    (hh : (attemptRun (envs k) tree path ledger dirs).errors.head? = some e)
    (hrl : isRateLimitRetry e = false) :
    retryDownload tree path envs k (fuel + 1) ledger dirs =
      ⟨[attemptRun (envs k) tree path ledger dirs], [], [e],
        (attemptRun (envs k) tree path ledger dirs).ledger,
        (attemptRun (envs k) tree path ledger dirs).dirs, some (.ok ())⟩ := by
  simp only [retryDownload, hh, hrl, Bool.false_eq_true, if_false]

theorem retryDownload_rlStep (tree : RemoteNode) (path : String)
    (envs : Nat → Env) (k fuel : Nat) (ledger dirs : List String) (e : Err)
    (hh : (attemptRun (envs k) tree path ledger dirs).errors.head? = some e)
    (hrl : isRateLimitRetry e = true) :
    retryDownload tree path envs k (fuel + 1) ledger dirs =
      ⟨attemptRun (envs k) tree path ledger dirs ::
          (retryDownload tree path envs (k + 1) fuel
            (attemptRun (envs k) tree path ledger dirs).ledger
            (attemptRun (envs k) tree path ledger dirs).dirs).attempts,
        parseIntJS (e.retryAfter.getD "") ::
          (retryDownload tree path envs (k + 1) fuel
            (attemptRun (envs k) tree path ledger dirs).ledger
            (attemptRun (envs k) tree path ledger dirs).dirs).waits,
        e :: (retryDownload tree path envs (k + 1) fuel
            (attemptRun (envs k) tree path ledger dirs).ledger
            (attemptRun (envs k) tree path ledger dirs).dirs).errorLog,
        (retryDownload tree path envs (k + 1) fuel
            (attemptRun (envs k) tree path ledger dirs).ledger
            (attemptRun (envs k) tree path ledger dirs).dirs).finalLedger,
        (retryDownload tree path envs (k + 1) fuel
            (attemptRun (envs k) tree path ledger dirs).ledger
            (attemptRun (envs k) tree path ledger dirs).dirs).finalDirs,
        (retryDownload tree path envs (k + 1) fuel
            (attemptRun (envs k) tree path ledger dirs).ledger
            (attemptRun (envs k) tree path ledger dirs).dirs).result⟩ := by
  simp only [retryDownload, hh, hrl, if_true]

theorem parseIntJS_ne_empty {s : String} {w : Int} (h : parseIntJS s = some w) :
    (s == "") = false := by
  by_cases hs : s = ""
  · rw [hs] at h
    rw [parseIntJS_empty] at h
    exact absurd h (by simp)
  · exact beq_eq_false_iff_ne.mpr hs

theorem isRateLimitRetry_of_parseable {e : Err} {s : String} {w : Int}
    (h429 : e.statusCode = some 429) (hs : e.retryAfter = some s)
    (hw : parseIntJS s = some w) : isRateLimitRetry e = true := by
  simp [isRateLimitRetry, h429, truthyStr, hs, parseIntJS_ne_empty hw]

theorem retryDownload_all429 (tree : RemoteNode) (path : String) (envs : Nat → Env)
    (hall : ∀ (j : Nat) (L D : List String), ∃ e s w,
      (attemptRun (envs j) tree path L D).errors.head? = some e ∧
      e.statusCode = some 429 ∧ e.retryAfter = some s ∧ parseIntJS s = some w) :
    ∀ (fuel k : Nat) (ledger dirs : List String),
      (retryDownload tree path envs k fuel ledger dirs).result = none ∧
      (retryDownload tree path envs k fuel ledger dirs).attempts.length = fuel := by
  intro fuel
  induction fuel with
  | zero =>
    intro k ledger dirs
    simp [retryDownload]
  | succ fuel ih =>
    intro k ledger dirs
    obtain ⟨e, s, w, hh, h429, hs, hw⟩ := hall k ledger dirs
    have hrl := isRateLimitRetry_of_parseable h429 hs hw
    simp only [retryDownload, hh, hrl, if_true]
    obtain ⟨ihr, ihl⟩ := ih (k + 1)
      (attemptRun (envs k) tree path ledger dirs).ledger
      (attemptRun (envs k) tree path ledger dirs).dirs
    exact ⟨ihr, by simp [ihl]⟩

/-- Claim C1: across all retry attempts of one root synchronization run — the
run starts with an empty ledger, the ledger is never cleared, and every
attempt resumes from the ledger the previous attempt left — every file id is
transferred (read stream opened and piped to its mirrored local path) at most
once per ledger lifetime; consecutive attempts' ledgers only ever extend.
File ids are globally unique in the remote data model, which is the `Nodup`
hypothesis. -/
theorem claimC1 (tree : RemoteNode) (path : String) (envs : Nat → Env)
    (fuel : Nat) (hnd : (fileIdsUnder tree).Nodup) :
    (traceIds (retryDownload tree path envs 0 fuel [] [])).Nodup ∧
    List.Chain' (fun a b => ∃ t, b.ledger = a.ledger ++ t)
      (retryDownload tree path envs 0 fuel [] []).attempts :=
  ⟨(retryDownload_nodup tree path envs hnd fuel 0 [] []).1,
   (retryDownload_chain tree path envs fuel 0 [] []).1⟩

theorem claimC1_witness :
    (traceIds (retryDownload sampleTree "/dest/Root" (fun _ => envOk) 0 2 [] [])).Nodup ∧
    List.Chain' (fun a b => ∃ t, b.ledger = a.ledger ++ t)
      (retryDownload sampleTree "/dest/Root" (fun _ => envOk) 0 2 [] []).attempts := by
  have h : (fileIdsUnder sampleTree).Nodup := by decide
  exact claimC1 sampleTree "/dest/Root" (fun _ => envOk) 2 h

/-- Claim C2: one synchronizer pass extends the ledger by exactly the ids of
the transfers it performs, in order: an id is added to the ledger iff its byte
stream was handed to the filesystem write path during the pass, the mark lands
together with its successful transfer (mark-after-success, never
mark-before-attempt, so a rejected stream marks nothing), and every
transferred id was absent from the ledger on entry. -/
theorem claimC2 (env : Env) (p : String) (st : SyncState) (n : RemoteNode) :
    ∃ ts, (syncNode env p st n).transfers = st.transfers ++ ts ∧
      (syncNode env p st n).ledger = st.ledger ++ ts.map Prod.fst ∧
      ∀ x ∈ ts, x.1 ∉ st.ledger :=
  syncNode_delta env p st n

/-- Claim C3: when an attempt fails with `statusCode` 429 and a parseable
`retry-after` header of `w` seconds, the controller logs the error, records a
backoff wait of exactly `w` (seconds, slept as `w * 1000` milliseconds in the
source), and re-runs the synchronizer with the very ledger (and directory set)
the failed attempt left behind; and as long as every attempt keeps failing
with a parseable 429 this repeats without any retry cap — one further attempt
for every unit of fuel, never reaching a terminal result. -/
theorem claimC3 (tree : RemoteNode) (path : String) (envs : Nat → Env)
    (k fuel : Nat) (ledger dirs : List String) :
    (∀ (e : Err) (s : String) (w : Int),
      (attemptRun (envs k) tree path ledger dirs).errors.head? = some e →
      e.statusCode = some 429 → e.retryAfter = some s → parseIntJS s = some w →
      retryDownload tree path envs k (fuel + 1) ledger dirs =
        ⟨attemptRun (envs k) tree path ledger dirs ::
            (retryDownload tree path envs (k + 1) fuel
              (attemptRun (envs k) tree path ledger dirs).ledger
              (attemptRun (envs k) tree path ledger dirs).dirs).attempts,
          some w ::
            (retryDownload tree path envs (k + 1) fuel
              (attemptRun (envs k) tree path ledger dirs).ledger
              (attemptRun (envs k) tree path ledger dirs).dirs).waits,
          e :: (retryDownload tree path envs (k + 1) fuel
              (attemptRun (envs k) tree path ledger dirs).ledger
              (attemptRun (envs k) tree path ledger dirs).dirs).errorLog,
          (retryDownload tree path envs (k + 1) fuel
              (attemptRun (envs k) tree path ledger dirs).ledger
              (attemptRun (envs k) tree path ledger dirs).dirs).finalLedger,
          (retryDownload tree path envs (k + 1) fuel
              (attemptRun (envs k) tree path ledger dirs).ledger
              (attemptRun (envs k) tree path ledger dirs).dirs).finalDirs,
          (retryDownload tree path envs (k + 1) fuel
              (attemptRun (envs k) tree path ledger dirs).ledger
              (attemptRun (envs k) tree path ledger dirs).dirs).result⟩) ∧
    ((∀ (j : Nat) (L D : List String), ∃ e s w,
        (attemptRun (envs j) tree path L D).errors.head? = some e ∧
        e.statusCode = some 429 ∧ e.retryAfter = some s ∧ parseIntJS s = some w) →
      (retryDownload tree path envs k fuel ledger dirs).result = none ∧
      (retryDownload tree path envs k fuel ledger dirs).attempts.length = fuel) := by
  constructor
  · intro e s w hh h429 hs hw
    have hrl := isRateLimitRetry_of_parseable h429 hs hw
    rw [retryDownload_rlStep tree path envs k fuel ledger dirs e hh hrl]
    simp [hs, hw]
  · intro hall
    exact retryDownload_all429 tree path envs hall fuel k ledger dirs

theorem claimC3_witness :
    (retryDownload rootOnly "p" (fun _ => envListRL) 0 2 [] [] =
      ⟨attemptRun envListRL rootOnly "p" [] [] ::
          (retryDownload rootOnly "p" (fun _ => envListRL) 1 1
            (attemptRun envListRL rootOnly "p" [] []).ledger
            (attemptRun envListRL rootOnly "p" [] []).dirs).attempts,
        some 2 ::
          (retryDownload rootOnly "p" (fun _ => envListRL) 1 1
            (attemptRun envListRL rootOnly "p" [] []).ledger
            (attemptRun envListRL rootOnly "p" [] []).dirs).waits,
        errRL :: (retryDownload rootOnly "p" (fun _ => envListRL) 1 1
            (attemptRun envListRL rootOnly "p" [] []).ledger
            (attemptRun envListRL rootOnly "p" [] []).dirs).errorLog,
        (retryDownload rootOnly "p" (fun _ => envListRL) 1 1
            (attemptRun envListRL rootOnly "p" [] []).ledger
            (attemptRun envListRL rootOnly "p" [] []).dirs).finalLedger,
        (retryDownload rootOnly "p" (fun _ => envListRL) 1 1
            (attemptRun envListRL rootOnly "p" [] []).ledger
            (attemptRun envListRL rootOnly "p" [] []).dirs).finalDirs,
        (retryDownload rootOnly "p" (fun _ => envListRL) 1 1
            (attemptRun envListRL rootOnly "p" [] []).ledger
            (attemptRun envListRL rootOnly "p" [] []).dirs).result⟩) ∧
    ((retryDownload rootOnly "p" (fun _ => envListRL) 0 3 [] []).result = none ∧
      (retryDownload rootOnly "p" (fun _ => envListRL) 0 3 [] []).attempts.length = 3) :=
  ⟨(claimC3 rootOnly "p" (fun _ => envListRL) 0 1 [] []).1 errRL "2" 2 rfl rfl rfl rfl,
   (claimC3 rootOnly "p" (fun _ => envListRL) 0 3 [] []).2
     (fun _ _ _ => ⟨errRL, "2", 2, rfl, rfl, rfl, rfl⟩)⟩

/-- Claim C4 as frozen is false on the code: the retry condition tests only
truthiness of the `retry-after` header, not parseability.  A 429 whose header
is `"abc"` has no parseable (`parseInt` yields `NaN`) retry-after value, so
the claim demands a terminal failure with no further attempt — yet the
controller launches a second attempt. -/
theorem claimC4_counterexample :
    parseIntJS "abc" = none ∧
    (attemptRun envListNaN rootOnly "p" [] []).errors.head? = some errNaN ∧
    (retryDownload rootOnly "p" (fun _ => envListNaN) 0 2 [] []).attempts.length = 2 :=
  ⟨rfl, rfl, rfl⟩

/-- Claim C4 (amended): a synchronization failure is terminal — logged once to
the error log, the wrapper resolving, no further attempt — exactly when it is
a non-429 error, or a 429 whose `retry-after` header is absent or empty
(falsy); a 429 with any nonempty header, parseable or not, is retried. -/
theorem claimC4 (tree : RemoteNode) (path : String) (envs : Nat → Env)
    (k fuel : Nat) (ledger dirs : List String) (e : Err)
    (hh : (attemptRun (envs k) tree path ledger dirs).errors.head? = some e)
    (hterm : e.statusCode ≠ some 429 ∨ e.retryAfter = none ∨ e.retryAfter = some "") :
    retryDownload tree path envs k (fuel + 1) ledger dirs =
      ⟨[attemptRun (envs k) tree path ledger dirs], [], [e],
        (attemptRun (envs k) tree path ledger dirs).ledger,
        (attemptRun (envs k) tree path ledger dirs).dirs, some (.ok ())⟩ := by
  apply retryDownload_terminalFail tree path envs k fuel ledger dirs e hh
  rcases hterm with h | h | h
  · simp [isRateLimitRetry, beq_eq_false_iff_ne.mpr h]
  · simp [isRateLimitRetry, truthyStr, h]
  · simp [isRateLimitRetry, truthyStr, h]

theorem claimC4_witness :
    retryDownload rootOnly "p" (fun _ => envList500) 0 1 [] [] =
      ⟨[attemptRun envList500 rootOnly "p" [] []], [], [err500],
        (attemptRun envList500 rootOnly "p" [] []).ledger,
        (attemptRun envList500 rootOnly "p" [] []).dirs, some (.ok ())⟩ :=
  claimC4 rootOnly "p" (fun _ => envList500) 0 0 [] [] err500 rfl
    (Or.inl (by decide))

/-- Claim C5: folder listing issues sequential page requests of fixed size
1000 and concatenates the pages in fetch order, recovering the folder's
entries exactly; a request is the last one exactly when its page is strictly
shorter than 1000, and otherwise the next request is issued at the offset
advanced by 1000; in particular exactly 1000 children yield requests at
offsets 0 and 1000, while 999 children yield the single request at offset
0. -/
theorem claimC5 (children : List RemoteEntry) :
    fetchAllFolderItems children = children ∧
    (∀ offset, (fetchPage children offset 1000).length < 1000 →
      (fetchItemsBatch children offset).2 = [offset]) ∧
    (∀ offset, (fetchPage children offset 1000).length = 1000 →
      (fetchItemsBatch children offset).2 =
        offset :: (fetchItemsBatch children (offset + 1000)).2) ∧
    (children.length = 1000 → (fetchItemsBatch children 0).2 = [0, 1000]) ∧
    (children.length = 999 → (fetchItemsBatch children 0).2 = [0]) :=
  ⟨fetchAllFolderItems_eq children,
   fun o h => fetchItemsBatch_offsets_short children o h,
   fun o h => fetchItemsBatch_offsets_full children o h,
   fetchItemsBatch_offsets_1000 children,
   fetchItemsBatch_offsets_999 children⟩

theorem claimC5_witness :
    (fetchItemsBatch (List.replicate 1000 dummyEntry) 0).2 = [0, 1000] ∧
    (fetchItemsBatch (List.replicate 999 dummyEntry) 0).2 = [0] ∧
    (fetchItemsBatch (List.replicate 5 dummyEntry) 0).2 = [0] :=
  ⟨(claimC5 (List.replicate 1000 dummyEntry)).2.2.2.1 (List.length_replicate 1000 dummyEntry),
   (claimC5 (List.replicate 999 dummyEntry)).2.2.2.2 (List.length_replicate 999 dummyEntry),
   (claimC5 (List.replicate 5 dummyEntry)).2.1 0
     (by simp [fetchPage])⟩

/-- Claim C6: a synchronizer pass over a tree all of whose listed file ids are
already in the ledger performs zero transfer calls — no read stream is
requested, none is opened, nothing is piped. -/
theorem claimC6 (env : Env) (p : String) (st : SyncState) (tree : RemoteNode)
    (h : ∀ x ∈ fileIdsUnder tree, x ∈ st.ledger) :
    (syncNode env p st tree).calls = st.calls ∧
    (syncNode env p st tree).transfers = st.transfers :=
  ⟨(syncNode_skip env p st tree h).2.1, (syncNode_skip env p st tree h).1⟩

theorem claimC6_witness :
    (syncNode envOk "/d" ⟨["804", "806"], [], [], [], []⟩ sampleTree).calls =
      (⟨["804", "806"], [], [], [], []⟩ : SyncState).calls ∧
    (syncNode envOk "/d" ⟨["804", "806"], [], [], [], []⟩ sampleTree).transfers =
      (⟨["804", "806"], [], [], [], []⟩ : SyncState).transfers :=
  claimC6 envOk "/d" ⟨["804", "806"], [], [], [], []⟩ sampleTree (by decide)

/-- Claim C7 as frozen is false on the code: the parser has no general
leading-dash rule.  `"--foo"` begins with a dash and is not the recognized
option token, yet the loop's else branch pushes it onto `rootFolderIds`. -/
theorem claimC7_counterexample :
    startsWithJS "--foo" "-" = true ∧
    (parseArgsLoop ["--foo"] [] "/sd").1 = ["--foo"] :=
  ⟨rfl, rfl⟩

/-- Claim C7 (amended): only the recognized option token `--destination`
itself (together with the following non-empty, non-`--` token it consumes as
its value) is kept out of the root-folder list; every other token — with a
leading dash or not — is appended to the root-folder ids, in order. -/
theorem claimC7 (args roots : List String) (dest : String)
    (h : "--destination" ∉ args) :
    parseArgsLoop args roots dest = (roots ++ args, dest) :=
  parseArgsLoop_no_dest args roots dest h

theorem claimC7_witness :
    parseArgsLoop ["--foo", "9123", "-x"] [] "/sd" =
      ([] ++ ["--foo", "9123", "-x"], "/sd") :=
  claimC7 ["--foo", "9123", "-x"] [] "/sd" (by decide)

/-- Claim C8 as frozen is false on the code: with no destination option the
output root is initialized from `__dirname` — the script's own directory —
which is not the process working directory whenever the script is launched
from elsewhere, as in this environment. -/
theorem claimC8_counterexample :
    (parseArgsLoop ["9123"] [] (defaultDestination sampleProc)).2 =
      sampleProc.scriptDir ∧
    sampleProc.scriptDir ≠ sampleProc.cwd :=
  ⟨rfl, by decide⟩

/-- Claim C8 (amended): when no `--destination` option is supplied the output
root used for all requested roots is the script's directory `__dirname` (not
the process working directory); supplying `--destination <path>` with a
non-empty path not starting with `--` overrides it for all roots; each root is
mirrored under `<destination>/<rootFolderName>`. -/
theorem claimC8 (penv : ProcEnv) (args : List String) (p : String)
    (rest : List String) (tree : RemoteNode) (d : String) (envs : Nat → Env)
    (fuel : Nat) :
    ("--destination" ∉ args →
      (parseArgsLoop args [] (defaultDestination penv)).2 = penv.scriptDir) ∧
    (¬p = "" → startsWithJS p "--" = false → "--destination" ∉ rest →
      (parseArgsLoop ("--destination" :: p :: rest) []
        (defaultDestination penv)).2 = p) ∧
    (processRoot none tree d envs fuel).localRootPath =
      some (jsJoin d tree.entry.name) := by
  refine ⟨?_, ?_, rfl⟩
  · intro h
    rw [parseArgsLoop_no_dest args [] (defaultDestination penv) h]
    rfl
  · intro hp hsw h
    simp only [parseArgsLoop]
    rw [if_pos (by rfl)]
    rw [if_pos (by simp [beq_eq_false_iff_ne.mpr hp, hsw])]
    rw [parseArgsLoop_no_dest rest [] p h]

theorem claimC8_witness :
    (parseArgsLoop ["9123"] [] (defaultDestination sampleProc)).2 =
      sampleProc.scriptDir ∧
    (parseArgsLoop ("--destination" :: "/data/out" :: ["9123"]) []
      (defaultDestination sampleProc)).2 = "/data/out" ∧
    (processRoot none sampleTree "/data/out" (fun _ => envOk) 1).localRootPath =
      some (jsJoin "/data/out" sampleTree.entry.name) :=
  ⟨(claimC8 sampleProc ["9123"] "/data/out" ["9123"] sampleTree "/data/out"
      (fun _ => envOk) 1).1 (by decide),
   (claimC8 sampleProc ["9123"] "/data/out" ["9123"] sampleTree "/data/out"
      (fun _ => envOk) 1).2.1 (by decide) (by decide) (by decide),
   (claimC8 sampleProc ["9123"] "/data/out" ["9123"] sampleTree "/data/out"
      (fun _ => envOk) 1).2.2⟩

/-- Claim C9: the per-root retry wrapper never rejects: whenever its promise
settles it resolves with unit, and a terminal (non-rate-limit) failure is
logged to the error log and then swallowed — the wrapper resolves exactly as
it does for a completed root. -/
theorem claimC9 (tree : RemoteNode) (path : String) (envs : Nat → Env)
    (k fuel : Nat) (ledger dirs : List String) :
    (∀ r, (retryDownload tree path envs k fuel ledger dirs).result = some r →
      r = .ok ()) ∧
    (∀ e, (attemptRun (envs k) tree path ledger dirs).errors.head? = some e →
      isRateLimitRetry e = false →
      (retryDownload tree path envs k (fuel + 1) ledger dirs).errorLog = [e] ∧
      (retryDownload tree path envs k (fuel + 1) ledger dirs).result =
        some (.ok ())) := by
  constructor
  · intro r h
    exact retryDownload_result tree path envs fuel k ledger dirs r h
  · intro e hh hrl
    rw [retryDownload_terminalFail tree path envs k fuel ledger dirs e hh hrl]
    exact ⟨rfl, rfl⟩

theorem claimC9_witness :
    (∃ r, (retryDownload rootOnly "p" (fun _ => envList500) 0 1 [] []).result =
      some r ∧ r = .ok ()) ∧
    (retryDownload rootOnly "p" (fun _ => envList500) 0 1 [] []).errorLog =
      [err500] ∧
    (retryDownload rootOnly "p" (fun _ => envList500) 0 1 [] []).result =
      some (.ok ()) :=
  ⟨⟨.ok (), rfl, (claimC9 rootOnly "p" (fun _ => envList500) 0 1 [] []).1
      (.ok ()) rfl⟩,
   ((claimC9 rootOnly "p" (fun _ => envList500) 0 0 [] []).2 err500 rfl
      (by decide)).1,
   ((claimC9 rootOnly "p" (fun _ => envList500) 0 0 [] []).2 err500 rfl
      (by decide)).2⟩

/-- Claim C10: a rejection of the initial `fetchFolderInfo` for a root — any
error whatsoever, including a 429 that carries a retry-after header — is
terminal for that root: the outer catch logs it, no local root directory is
created, and the retry wrapper (and with it any retry) never starts, because
rate-limit recovery wraps only `downloadFilesRecursively`, not this initial
fetch. -/
theorem claimC10 (e : Err) (tree : RemoteNode) (d : String) (envs : Nat → Env)
    (fuel : Nat) :
    (processRoot (some e) tree d envs fuel).errorLog = [e] ∧
    (processRoot (some e) tree d envs fuel).retry = none ∧
    (processRoot (some e) tree d envs fuel).localRootPath = none :=
  ⟨rfl, rfl, rfl⟩
